import Mathlib

/-!
Verification of the `global-storage` component of NumberMan1/component.

Shallow embedding notes:
* Opaque byte payloads (`[]byte` values produced by `MarshalBinary`) are
  modelled by `Bytes := String`; a Redis value that may be absent is
  `Option Bytes` (`none` = key absent, mirroring a `nil` slice / `redis.Nil`).
* The networked Redis backend is modelled as explicit state threaded through
  the operations (an `Option Bytes` for a scalar key, an association list for
  a hash key, a score-sorted element list for a sorted-set key).  The
  transaction methods of the source never touch `tx.base.client` except in
  `Commit`, so their embeddings act on the transaction record alone.
* Sorted-set scores are `float64` in the source and are used only through
  `<` / `<=` comparisons; finite doubles are order-embedded in the rationals,
  so scores are modelled as `Rat`.
* `sort.Slice` (not guaranteed stable) applied to the iteration of a Go map
  (unspecified order) is modelled as a stable insertion sort applied to an
  arbitrary permutation of the canonical materialized list: the closure of
  outcomes is identical.
* Go errors are the inductive `StErr`; a result of `none : Option StErr`
  is a nil error.
-/

namespace GlobalStorage

/-- Opaque byte payload (the result of `MarshalBinary`). -/
abbrev Bytes := String

/-- Error taxonomy of the storage layer (`errors.go` and ad-hoc
`errors.New` values in the transaction code). -/
inductive StErr where
  /-- `ErrFieldNotFound` -/
  | notFound
  /-- `ErrTransactionConflict` -/
  | conflict
  /-- `errors.New ("transaction already finished")` -/
  | alreadyFinished
  /-- `errors.New ("... storage already registered: ...")` -/
  | duplicateRegistration
deriving DecidableEq, Repr

/-! ## Scalar (KV) store — `redis_kv.go` -/

/-- Sentinel payload the Lua script uses for an absent snapshot
(`redis_kv.go` line 130). -/
def nilSentinel : Bytes := "__NIL__"

/-- Encoding of an optional payload as the Lua script argument:
`snapshotArg := tx.snapshot; if snapshotArg == nil { snapshotArg = []byte("__NIL__") }`
(`redis_kv.go` lines 128-131). -/
def kvEnc : Option Bytes → Bytes
  | none => nilSentinel
  | some b => b

/-- The Lua compare-and-set of `inMemoryKVTx.Commit` (`redis_kv.go` lines
115-125): `current` is the stored value (`false`, i.e. `none`, when the key is
absent); the script sets the key to `newVal` and returns 1 exactly when
`current == snapshot or (current == false and snapshot == '__NIL__')`.
Returns the new backend value and the script result (`true` = 1). -/
def kvCAS (current : Option Bytes) (snapshotArg newVal : Bytes) :
    Option Bytes × Bool :=
  let hit : Bool :=
    match current with
    | some c => c == snapshotArg
    | none => snapshotArg == nilSentinel
  if hit then (some newVal, true) else (current, false)

/-- Transaction state of `inMemoryKVTx` (`redis_kv.go` lines 59-66).
The mutex only guards concurrent access and is not modelled. -/
structure inMemoryKVTx where
  snapshot : Option Bytes
  write : Bytes
  written : Bool
  done : Bool
deriving DecidableEq, Repr

/-- `redisKV.BeginTx` (`redis_kv.go` lines 45-57): the snapshot is the current
backend value (`nil`, i.e. `none`, when the key is absent).  The `write` field
starts as the zero value (`nil` slice); it is only ever read when
`written = true`, so its initial contents are irrelevant and modelled as `""`. -/
def redisKV.BeginTx (backend : Option Bytes) : inMemoryKVTx :=
  { snapshot := backend, write := "", written := false, done := false }

/-- `inMemoryKVTx.Set` (`redis_kv.go` lines 68-78): buffers the write. -/
def inMemoryKVTx.Set (tx : inMemoryKVTx) (b : Bytes) : inMemoryKVTx :=
  { tx with write := b, written := true }

/-- `inMemoryKVTx.Get` (`redis_kv.go` lines 80-91): buffered write if present,
else the snapshot; `none` models `ErrFieldNotFound` (`data == nil`). -/
def inMemoryKVTx.Get (tx : inMemoryKVTx) : Option Bytes :=
  if tx.written then some tx.write else tx.snapshot

/-- `inMemoryKVTx.Rollback` (`redis_kv.go` lines 146-150). -/
def inMemoryKVTx.Rollback (tx : inMemoryKVTx) : inMemoryKVTx :=
  { tx with done := true }

/-- Result of a KV `Commit`: backend value afterwards, transaction state
afterwards, and the returned error (`none` = nil). -/
structure KVCommitRes where
  backend : Option Bytes
  tx : inMemoryKVTx
  err : Option StErr
deriving DecidableEq, Repr

/-- `inMemoryKVTx.Commit` (`redis_kv.go` lines 94-144): fails when already
finished; no-op success when nothing was buffered; otherwise runs the Lua
compare-and-set and maps a script result of 0 to `ErrTransactionConflict`. -/
def inMemoryKVTx.Commit (tx : inMemoryKVTx) (backend : Option Bytes) :
    KVCommitRes :=
  if tx.done then
    { backend := backend, tx := tx, err := some .alreadyFinished }
  else
    let tx2 : inMemoryKVTx := { tx with done := true }
    if tx.written = false then
      { backend := backend, tx := tx2, err := none }
    else
      let res := kvCAS backend (kvEnc tx.snapshot) tx.write
      if res.2 then
        { backend := res.1, tx := tx2, err := none }
      else
        { backend := res.1, tx := tx2, err := some .conflict }

/-- Helper: the Lua compare-and-set succeeds exactly when the current value
and the script argument agree after sentinel-encoding the current value. -/
theorem kvEnc_some (b : Bytes) : kvEnc (some b) = b := rfl

theorem kvEnc_none : kvEnc none = nilSentinel := rfl

theorem kvCAS_eq (current : Option Bytes) (arg newVal : Bytes) :
    kvCAS current arg newVal =
      if kvEnc current = arg then (some newVal, true) else (current, false) := by
  cases current with
  | none =>
    by_cases h : arg = nilSentinel
    · subst h; simp [kvCAS, kvEnc]
    · simp [kvCAS, kvEnc, h, Ne.symm h]
  | some c => simp [kvCAS, kvEnc]

/-- C1 (counterexample): the claim predicts that, for two transactions opened
from the same (absent) initial state, after the first commits a write the
second's commit must fail with Conflict and the stored value must equal the
first's write.  Concretely: both transactions begin with the key absent; T1
writes the 7-byte payload "__NIL__" and commits successfully; T2 then writes
"x" and its commit also succeeds (no Conflict), leaving the stored value "x",
which differs from T1's write. -/
theorem C1_kv_cas_distinguished_absent_false :
    (((redisKV.BeginTx none).Set nilSentinel).Commit none).err = none
    ∧ (((redisKV.BeginTx none).Set nilSentinel).Commit none).backend
        = some nilSentinel
    ∧ (((redisKV.BeginTx none).Set "x").Commit (some nilSentinel)).err = none
    ∧ (((redisKV.BeginTx none).Set "x").Commit (some nilSentinel)).backend
        = some "x"
    ∧ some "x" ≠ some nilSentinel := by decide

/-- C1 (amended): a Commit with nothing buffered is a no-op success; a Commit
with a buffered write succeeds and stores it exactly when the backend value at
commit time equals the Snapshot payload after encoding absence as the sentinel
payload "__NIL__" on both sides (bitwise equality with absence distinguished,
except that an absent value and the literal payload "__NIL__" are identified),
and otherwise fails with Conflict leaving the backend unchanged.
Consequently, for two transactions opened from the same initial state, after
the first commits a write w1 whose bytes differ from the sentinel encoding of
the initial state, the second's commit of a write must fail with Conflict and
the stored value equals w1. -/
theorem C1_kv_cas_characterization :
    (∀ (backend : Option Bytes) (tx : inMemoryKVTx), tx.done = false →
      (tx.written = false →
        tx.Commit backend = ⟨backend, { tx with done := true }, none⟩)
      ∧ (tx.written = true →
          (kvEnc backend = kvEnc tx.snapshot →
            tx.Commit backend
              = ⟨some tx.write, { tx with done := true }, none⟩)
          ∧ (kvEnc backend ≠ kvEnc tx.snapshot →
            tx.Commit backend
              = ⟨backend, { tx with done := true }, some .conflict⟩)))
    ∧ (∀ (b0 : Option Bytes) (w1 w2 : Bytes), w1 ≠ kvEnc b0 →
        (((redisKV.BeginTx b0).Set w1).Commit b0).err = none
        ∧ (((redisKV.BeginTx b0).Set w1).Commit b0).backend = some w1
        ∧ (((redisKV.BeginTx b0).Set w2).Commit (some w1)).err = some .conflict
        ∧ (((redisKV.BeginTx b0).Set w2).Commit (some w1)).backend = some w1) := by
  constructor
  · intro backend tx hdone
    refine ⟨fun hw => ?_, fun hw => ⟨fun henc => ?_, fun henc => ?_⟩⟩
    · simp [inMemoryKVTx.Commit, hdone, hw]
    · simp [inMemoryKVTx.Commit, hdone, hw, kvCAS_eq, henc]
    · simp [inMemoryKVTx.Commit, hdone, hw, kvCAS_eq, henc]
  · intro b0 w1 w2 hne
    have h1 : (((redisKV.BeginTx b0).Set w1).Commit b0)
        = ⟨some w1, { snapshot := b0, write := w1, written := true,
                      done := true }, none⟩ := by
      simp [redisKV.BeginTx, inMemoryKVTx.Set, inMemoryKVTx.Commit, kvCAS_eq]
    have h2 : (((redisKV.BeginTx b0).Set w2).Commit (some w1))
        = ⟨some w1, { snapshot := b0, write := w2, written := true,
                      done := true }, some .conflict⟩ := by
      simp [redisKV.BeginTx, inMemoryKVTx.Set, inMemoryKVTx.Commit, kvCAS_eq,
        kvEnc_some, hne]
    exact ⟨by rw [h1], by rw [h1], by rw [h2], by rw [h2]⟩

/-- C1 (witness): concrete instantiation of the amended clauses — an
initially-present key "init", transaction writes "a" and "b". -/
theorem C1_kv_cas_characterization_witness :
    ("a" : Bytes) ≠ kvEnc (some "init")
    ∧ ((((redisKV.BeginTx (some "init")).Set "a").Commit (some "init")).err = none
       ∧ (((redisKV.BeginTx (some "init")).Set "a").Commit (some "init")).backend
           = some "a"
       ∧ (((redisKV.BeginTx (some "init")).Set "b").Commit (some "a")).err
           = some .conflict
       ∧ (((redisKV.BeginTx (some "init")).Set "b").Commit (some "a")).backend
           = some "a") :=
  ⟨by decide, C1_kv_cas_characterization.2 (some "init") "a" "b" (by decide)⟩

/-- C9: the Lua compare-and-set encodes an absent Snapshot as the literal
payload "__NIL__", so (a) a transaction whose Snapshot is the 7-byte payload
"__NIL__" commits successfully against an absent key, and (b) a transaction
begun when the key was absent commits successfully even though the key now
holds the literal payload "__NIL__" — the conflict check cannot distinguish
absence from the sentinel. -/
theorem C9_kv_nil_sentinel_collision :
    ∀ w : Bytes,
      (((redisKV.BeginTx (some nilSentinel)).Set w).Commit none).err = none
      ∧ (((redisKV.BeginTx (some nilSentinel)).Set w).Commit none).backend
          = some w
      ∧ (((redisKV.BeginTx none).Set w).Commit (some nilSentinel)).err = none
      ∧ (((redisKV.BeginTx none).Set w).Commit (some nilSentinel)).backend
          = some w := by
  intro w
  refine ⟨?_, ?_, ?_, ?_⟩ <;>
    simp [redisKV.BeginTx, inMemoryKVTx.Set, inMemoryKVTx.Commit, kvCAS,
      kvEnc, nilSentinel]

/-! ## Field-map (Hash) store — `redis_hash.go`

The file holds two revisions of the transaction code; the claims cite the
Lua-batch revision (lines 239-475) as well as the first revision's `HGet`
(lines 125-142).  A Go hash (`map[string][]byte`) is modelled as an
association list with distinct keys; only key lookup, update and removal are
used, for which the list model is exact. -/

/-- Entry of the operation log (`hashOp`, `redis_hash.go` lines 324-328).
For a delete the `value` field is the Go zero value and never read. -/
structure hashOp where
  isSet : Bool
  field : String
  value : Bytes
deriving DecidableEq, Repr

/-- Go map lookup `m[field]`. -/
def lookupField (m : List (String × Bytes)) (f : String) : Option Bytes :=
  m.lookup f

/-- Transaction state of `inMemoryHashTx` (`redis_hash.go` lines 330-336). -/
structure inMemoryHashTx where
  snapshot : List (String × Bytes)
  opQueue : List hashOp
  done : Bool
deriving DecidableEq, Repr

/-- `redisHash.BeginTx` (`redis_hash.go` lines 312-322): snapshot of the
current backend hash, empty operation queue. -/
def redisHash.BeginTx (backend : List (String × Bytes)) : inMemoryHashTx :=
  { snapshot := backend, opQueue := [], done := false }

/-- `inMemoryHashTx.HSet` (`redis_hash.go` lines 351-360): appends a set
operation; the finished flag is not consulted. -/
def inMemoryHashTx.HSet (tx : inMemoryHashTx) (f : String) (v : Bytes) :
    inMemoryHashTx :=
  { tx with opQueue := tx.opQueue ++ [⟨true, f, v⟩] }

/-- `inMemoryHashTx.HDel` (`redis_hash.go` lines 420-427): appends one delete
operation per field; the finished flag is not consulted. -/
def inMemoryHashTx.HDel (tx : inMemoryHashTx) (fields : List String) :
    inMemoryHashTx :=
  { tx with opQueue := tx.opQueue ++ fields.map (fun f => ⟨false, f, ""⟩) }

/-- `inMemoryHashTx.HGet`, cited revision (`redis_hash.go` lines 363-386):
walks the operation queue from the most recent entry backwards; the first
operation mentioning the field decides (set → its value, delete →
`ErrFieldNotFound`, modelled as `none`); otherwise falls back to the
snapshot. -/
def inMemoryHashTx.HGet (tx : inMemoryHashTx) (f : String) : Option Bytes :=
  match tx.opQueue.reverse.find? (fun op => op.field == f) with
  | some op => if op.isSet then some op.value else none
  | none => lookupField tx.snapshot f

/-- `inMemoryHashTx.HGet`, first revision (`redis_hash.go` lines 125-142):
starts from the snapshot entry (`data, found := tx.snapshot[field]`, the Go
zero value when absent) and replays the whole queue forward, a set storing
the value and a delete clearing the found flag. -/
def inMemoryHashTx.HGetV1 (tx : inMemoryHashTx) (f : String) : Option Bytes :=
  let s0 : Bytes × Bool :=
    match lookupField tx.snapshot f with
    | some d => (d, true)
    | none => ("", false)
  let s := tx.opQueue.foldl
    (fun st op =>
      if op.field == f then
        (if op.isSet then (op.value, true) else (st.1, false))
      else st) s0
  if s.2 then some s.1 else none

/-- `inMemoryHashTx.Rollback` (`redis_hash.go` lines 471-475). -/
def inMemoryHashTx.Rollback (tx : inMemoryHashTx) : inMemoryHashTx :=
  { tx with done := true }

/-- Backend `HSET key field value` on the hash model: replace the entry if
the field exists, else append it. -/
def hsetB (m : List (String × Bytes)) (f : String) (v : Bytes) :
    List (String × Bytes) :=
  if m.any (fun kv => kv.1 == f) then
    m.map (fun kv => if kv.1 == f then (f, v) else kv)
  else m ++ [(f, v)]

/-- Backend `HDEL key field` on the hash model. -/
def hdelB (m : List (String × Bytes)) (f : String) : List (String × Bytes) :=
  m.filter (fun kv => kv.1 != f)

/-- The generated Lua batch of the cited `inMemoryHashTx.Commit`
(`redis_hash.go` lines 445-458): one `hset`/`hdel` call per queued
operation, applied in order. -/
def applyHashOps (b : List (String × Bytes)) (ops : List hashOp) :
    List (String × Bytes) :=
  ops.foldl
    (fun m op => if op.isSet then hsetB m op.field op.value else hdelB m op.field)
    b

/-- Result of a Hash `Commit`. -/
structure HashCommitRes where
  backend : List (String × Bytes)
  tx : inMemoryHashTx
  err : Option StErr
deriving DecidableEq, Repr

/-- `inMemoryHashTx.Commit`, cited revision (`redis_hash.go` lines 429-469):
fails when already finished, no-op success on an empty queue, otherwise
applies the whole queue to the backend as one atomic script (this revision
performs no conflict re-validation). -/
def inMemoryHashTx.Commit (tx : inMemoryHashTx) (b : List (String × Bytes)) :
    HashCommitRes :=
  if tx.done then { backend := b, tx := tx, err := some .alreadyFinished }
  else
    let tx2 : inMemoryHashTx := { tx with done := true }
    if tx.opQueue.isEmpty then { backend := b, tx := tx2, err := none }
    else { backend := applyHashOps b tx.opQueue, tx := tx2, err := none }

/-- Overlay read stated from the spec sentence: the most recent buffered
operation on the field wins (set → its value, delete → absent), and when no
buffered operation mentions the field the Snapshot value is used. -/
def hashOverlayGet (snapshot : List (String × Bytes)) (opQueue : List hashOp)
    (f : String) : Option Bytes :=
  match (opQueue.filter (fun op => op.field == f)).getLast? with
  | some op => if op.isSet then some op.value else none
  | none => lookupField snapshot f

/-- Helper: `find?` returns the head of the filtered list. -/
theorem find_eq_head_filter {α : Type} (p : α → Bool) (l : List α) :
    l.find? p = (l.filter p).head? := by
  induction l with
  | nil => rfl
  | cons a t ih =>
    cases h : p a with
    | true =>
      rw [List.find?_cons_of_pos t h, List.filter_cons_of_pos h, List.head?_cons]
    | false =>
      rw [List.find?_cons_of_neg t (by simp [h]),
        List.filter_cons_of_neg (by simp [h]), ih]

/-- Helper: the forward-replay `HGet` of the first revision also computes the
overlay read, shown by induction over the operation queue from the right. -/
theorem hgetV1_overlay (snap : List (String × Bytes)) (f : String) :
    ∀ (opq : List hashOp) (d : Bool),
      inMemoryHashTx.HGetV1 ⟨snap, opq, d⟩ f = hashOverlayGet snap opq f := by
  intro opq
  induction opq using List.reverseRecOn with
  | nil =>
    intro d
    cases h : lookupField snap f <;>
      simp [inMemoryHashTx.HGetV1, hashOverlayGet, h]
  | append_singleton l op ih =>
    intro d
    cases hq : (op.field == f) with
    | false =>
      have hq2 : ¬ op.field = f := by simpa using hq
      have hov : hashOverlayGet snap (l ++ [op]) f = hashOverlayGet snap l f := by
        simp [hashOverlayGet, List.filter_append, List.filter_cons, hq]
      rw [hov, ← ih d]
      simp [inMemoryHashTx.HGetV1, List.foldl_append, hq2]
    | true =>
      have hq2 : op.field = f := by simpa using hq
      cases hs : op.isSet with
      | true =>
        have hov : hashOverlayGet snap (l ++ [op]) f = some op.value := by
          simp [hashOverlayGet, List.filter_append, List.filter_cons, hq, hs,
            List.getLast?_concat]
        rw [hov]
        simp [inMemoryHashTx.HGetV1, List.foldl_append, hq2, hs]
      | false =>
        have hov : hashOverlayGet snap (l ++ [op]) f = none := by
          simp [hashOverlayGet, List.filter_append, List.filter_cons, hq, hs,
            List.getLast?_concat]
        rw [hov]
        simp [inMemoryHashTx.HGetV1, List.foldl_append, hq2, hs]

/-- C3: for every open Hash transaction and every field, `HGet` returns the
value of the most recent buffered operation on that field (a buffered set's
value; NotFound — `none` — when the most recent is a buffered delete), and
falls back to the Snapshot when no buffered operation mentions the field,
failing with NotFound when absent from both.  Both revisions of the
transactional `HGet` compute this overlay; neither takes the backend as an
input, so the result involves no backend call. -/
theorem C3_hash_tx_read_overlay :
    ∀ (snap : List (String × Bytes)) (opq : List hashOp) (d : Bool)
      (f : String),
      inMemoryHashTx.HGet ⟨snap, opq, d⟩ f = hashOverlayGet snap opq f
      ∧ inMemoryHashTx.HGetV1 ⟨snap, opq, d⟩ f = hashOverlayGet snap opq f := by
  intro snap opq d f
  constructor
  · simp only [inMemoryHashTx.HGet, find_eq_head_filter, List.filter_reverse,
      ← List.getLast?_eq_head?_reverse]
    rfl
  · exact hgetV1_overlay snap f opq d

/-! ## Sorted-set store — `redis_zset.go`

A sorted-set element is its opaque encoded payload (`MarshalBinary`, the
identity for dedup/removal) together with its `float64` score; scores are
used only through order comparisons and finite doubles order-embed into the
rationals, so they are modelled as `Rat`.  `applyOps` builds a Go map keyed
by payload and then iterates it in unspecified order before `sort.Slice`
(which is not guaranteed stable): this is modelled by the canonical list
`applyOps` below together with an arbitrary permutation of it (the
materialized view handed to the read operations), followed by a stable
insertion sort — the closure of reachable outcomes is the same. -/

/-- Sorted-set element: encoded payload plus score. -/
structure ZElem where
  member : Bytes
  score : Rat
deriving DecidableEq, Repr

/-- Comparator of the ascending `sort.Slice` calls
(`merged[i].Score() < merged[j].Score()`), as a non-strict total order. -/
def scoreLE (a b : ZElem) : Prop := a.score ≤ b.score

/-- Comparator of the descending `sort.Slice` calls
(`filtered[i].Score() > filtered[j].Score()`), as a non-strict total order. -/
def scoreGE (a b : ZElem) : Prop := b.score ≤ a.score

instance : DecidableRel scoreLE :=
  fun a b => inferInstanceAs (Decidable (a.score ≤ b.score))

instance : DecidableRel scoreGE :=
  fun a b => inferInstanceAs (Decidable (b.score ≤ a.score))

instance : IsTotal ZElem scoreLE := ⟨fun a b => le_total a.score b.score⟩

instance : IsTotal ZElem scoreGE := ⟨fun a b => le_total b.score a.score⟩

instance : IsTrans ZElem scoreLE := ⟨fun _ _ _ hab hbc => le_trans hab hbc⟩

instance : IsTrans ZElem scoreGE := ⟨fun _ _ _ hab hbc => le_trans hbc hab⟩

/-- Operation-log entry (`zsetOp`, `redis_zset.go` lines 130-134). -/
inductive zsetOp where
  | add (element : ZElem)
  | rem (member : Bytes)
deriving DecidableEq, Repr

/-- Go map insert `memberMap[string(key)] = item`: replace the entry with the
same payload key if present, else add the entry. -/
def zinsert (m : List ZElem) (e : ZElem) : List ZElem :=
  if m.any (fun x => x.member == e.member) then
    m.map (fun x => if x.member == e.member then e else x)
  else m ++ [e]

/-- Go map delete `delete(memberMap, string(op.member))`. -/
def zdelete (m : List ZElem) (b : Bytes) : List ZElem :=
  m.filter (fun x => x.member != b)

/-- Loop body of `applyOps` over the operation log. -/
def zstep (m : List ZElem) (op : zsetOp) : List ZElem :=
  match op with
  | .add e => zinsert m e
  | .rem b => zdelete m b

/-- `inMemoryZSetTx.applyOps` (`redis_zset.go` lines 261-294): the member map
seeded from the snapshot, then each logged operation applied in order
(add replaces by payload key, remove deletes by payload key).  The source
then iterates the map in unspecified order; this canonical list stands for
one such order, and the read operations below take an arbitrary permutation
of it. -/
def applyOps (snapshot : List ZElem) (ops : List zsetOp) : List ZElem :=
  ops.foldl zstep (snapshot.foldl zinsert [])

/-- Transaction state of `inMemoryZSetTx` (`redis_zset.go` lines 136-142). -/
structure inMemoryZSetTx where
  snapshot : List ZElem
  ops : List zsetOp
  done : Bool
deriving DecidableEq, Repr

/-- `redisZSet.BeginTx` (`redis_zset.go` lines 87-106): full snapshot, empty
operation log. -/
def redisZSet.BeginTx (backend : List ZElem) : inMemoryZSetTx :=
  { snapshot := backend, ops := [], done := false }

/-- `inMemoryZSetTx.ZAdd` (`redis_zset.go` lines 144-149): appends an add
operation; the finished flag is not consulted. -/
def inMemoryZSetTx.ZAdd (tx : inMemoryZSetTx) (e : ZElem) : inMemoryZSetTx :=
  { tx with ops := tx.ops ++ [.add e] }

/-- `inMemoryZSetTx.ZRem` (`redis_zset.go` lines 151-160): appends a remove
operation; the finished flag is not consulted. -/
def inMemoryZSetTx.ZRem (tx : inMemoryZSetTx) (b : Bytes) : inMemoryZSetTx :=
  { tx with ops := tx.ops ++ [.rem b] }

/-- `inMemoryZSetTx.Rollback` (`redis_zset.go` lines 360-364). -/
def inMemoryZSetTx.Rollback (tx : inMemoryZSetTx) : inMemoryZSetTx :=
  { tx with done := true }

/-- Go slice expression `arr[lo:hi]`: `none` models the out-of-range panic
(`0 <= lo <= hi <= len` is required). -/
def goSlice (arr : List ZElem) (lo hi : Int) : Option (List ZElem) :=
  if 0 ≤ lo ∧ lo ≤ hi ∧ hi ≤ (arr.length : Int) then
    some ((arr.drop lo.toNat).take (hi - lo).toNat)
  else none

/-- `inMemoryZSetTx.sliceRange` (`redis_zset.go` lines 297-315): negative
ranks count from the end, the start is clamped up to 0, the stop down to
`total - 1`, an inverted range yields an empty slice, otherwise the inclusive
slice `arr[start : stop+1]` is taken. -/
def sliceRange (arr : List ZElem) (start stop : Int) : Option (List ZElem) :=
  let total : Int := arr.length
  let start1 := if start < 0 then start + total else start
  let stop1 := if stop < 0 then stop + total else stop
  let start2 := if start1 < 0 then 0 else start1
  let stop2 := if stop1 ≥ total then total - 1 else stop1
  if start2 > stop2 then some []
  else goSlice arr start2 (stop2 + 1)

/-- `inMemoryZSetTx.ZRange` (`redis_zset.go` lines 164-170) on a materialized
view (an arbitrary iteration order of the member map): ascending sort by
score, then rank slicing. -/
def inMemoryZSetTx.ZRangeView (view : List ZElem) (start stop : Int) :
    Option (List ZElem) :=
  sliceRange (List.insertionSort scoreLE view) start stop

/-- Wrap-around of 64-bit two's-complement addition overflow (Go `int`). -/
def wrap64 (x : Int) : Int := (x + 2 ^ 63) % 2 ^ 64 - 2 ^ 63

/-- Score filter of `ZRevRangeByScore` (`redis_zset.go` lines 229-235):
keeps the elements with `s <= max && s >= min`. -/
def zscoreFiltered (view : List ZElem) (maxS minS : Rat) : List ZElem :=
  view.filter (fun e => decide (e.score ≤ maxS) && decide (minS ≤ e.score))

/-- The descending-by-score sort of the filtered view
(`redis_zset.go` lines 238-240). -/
def zrevSorted (view : List ZElem) (maxS minS : Rat) : List ZElem :=
  List.insertionSort scoreGE (zscoreFiltered view maxS minS)

/-- Offset clamp of `ZRevRangeByScore` (`redis_zset.go` lines 243-245):
`if offset < 0 { offset = 0 }`. -/
def pageStart (offset : Int) : Int := if offset < 0 then 0 else offset

/-- Count clamp of `ZRevRangeByScore` (`redis_zset.go` lines 246-248):
`if count < 0 { count = len(filtered) }`. -/
def pageCount (len count : Int) : Int := if count < 0 then len else count

/-- `inMemoryZSetTx.ZRevRangeByScore` (`redis_zset.go` lines 225-257) on a
materialized view: keep scores in `[minS, maxS]`, sort descending by score,
clamp a negative offset to 0, turn a negative count into the filtered
length, return empty when the offset reaches the filtered length, otherwise
slice `filtered[offset : end]` with `end = min(offset+count, len)` — where
`offset + count` is 64-bit machine addition and may wrap around. -/
def inMemoryZSetTx.ZRevRangeByScoreView (view : List ZElem) (maxS minS : Rat)
    (offset count : Int) : Option (List ZElem) :=
  let sorted := zrevSorted view maxS minS
  let offset2 := pageStart offset
  let count2 := pageCount (sorted.length : Int) count
  if offset2 ≥ (sorted.length : Int) then some []
  else
    let end1 := wrap64 (offset2 + count2)
    let end2 := if end1 > (sorted.length : Int) then (sorted.length : Int)
      else end1
    goSlice sorted offset2 end2

/-- `inMemoryZSetTx.ZTrimByTopN` (`redis_zset.go` lines 174-196) given the
materialized view it iterated (`merged`): ascending sort, then if more than
`n` members exist a remove operation is appended for every member past the
first `n`.  (A negative `n` makes the Go slice expression `merged[n:]`
panic; the theorems below assume `0 ≤ n`.) -/
def inMemoryZSetTx.ZTrimByTopNView (tx : inMemoryZSetTx)
    (merged : List ZElem) (n : Int) : inMemoryZSetTx :=
  let sorted := List.insertionSort scoreLE merged
  if (sorted.length : Int) ≤ n then tx
  else
    { tx with
      ops := tx.ops ++ (sorted.drop n.toNat).map (fun e => .rem e.member) }

/-- `inMemoryZSetTx.ZRevTrimByTopN` (`redis_zset.go` lines 200-221) given the
materialized view it iterated: descending sort, then remove operations for
every member past the first `n`. -/
def inMemoryZSetTx.ZRevTrimByTopNView (tx : inMemoryZSetTx)
    (merged : List ZElem) (n : Int) : inMemoryZSetTx :=
  let sorted := List.insertionSort scoreGE merged
  if (sorted.length : Int) ≤ n then tx
  else
    { tx with
      ops := tx.ops ++ (sorted.drop n.toNat).map (fun e => .rem e.member) }

/-- Backend `ZREMRANGEBYRANK key start stop` on a backend kept ascending by
score (external collaborator, spec §6): ranks resolve negatives from the
end, clamp, and the inclusive rank range is removed (nothing on an inverted
range). -/
def zremRangeByRank (bk : List ZElem) (start stop : Int) : List ZElem :=
  let card : Int := bk.length
  let start1 := if start < 0 then start + card else start
  let stop1 := if stop < 0 then stop + card else stop
  let start2 := if start1 < 0 then 0 else start1
  let stop2 := if stop1 ≥ card then card - 1 else stop1
  if start2 > stop2 then bk
  else bk.take start2.toNat ++ bk.drop (stop2.toNat + 1)

/-- `redisZSet.ZTrimByTopN` (`redis_zset.go` lines 108-117): direct-store
variant — reads the cardinality, removes nothing when it is at most `n`,
else removes ranks `n..-1`. -/
def redisZSet.ZTrimByTopN (bk : List ZElem) (n : Int) : List ZElem :=
  if (bk.length : Int) ≤ n then bk else zremRangeByRank bk n (-1)

/-- `redisZSet.ZRevTrimByTopN` (`redis_zset.go` lines 119-128): direct-store
variant — removes ranks `0..total-n-1` when more than `n` members exist. -/
def redisZSet.ZRevTrimByTopN (bk : List ZElem) (n : Int) : List ZElem :=
  if (bk.length : Int) ≤ n then bk
  else zremRangeByRank bk 0 ((bk.length : Int) - n - 1)

/-- Redis keeps a sorted set ordered by score with ties broken by the
lexicographic order of the member payload (external collaborator, spec §6). -/
def zscoreMemberLE (a b : ZElem) : Prop :=
  a.score < b.score ∨ (a.score = b.score ∧ a.member ≤ b.member)

instance : DecidableRel zscoreMemberLE :=
  fun a b =>
    inferInstanceAs
      (Decidable (a.score < b.score ∨ (a.score = b.score ∧ a.member ≤ b.member)))

/-- Backend `ZADD key score member`: update the member's score (removing any
previous entry with the same payload) and place it at its rank. -/
def bzadd (bk : List ZElem) (e : ZElem) : List ZElem :=
  List.orderedInsert zscoreMemberLE e
    (bk.filter (fun x => x.member != e.member))

/-- Backend `ZREM key member`. -/
def bzrem (bk : List ZElem) (m : Bytes) : List ZElem :=
  bk.filter (fun x => x.member != m)

/-- Result of a sorted-set `Commit`. -/
structure ZSetCommitRes where
  backend : List ZElem
  tx : inMemoryZSetTx
  err : Option StErr
deriving DecidableEq, Repr

/-- `inMemoryZSetTx.Commit` (`redis_zset.go` lines 318-357): fails when
already finished, no-op success on an empty log, otherwise one generated Lua
script applies every logged `zadd`/`zrem` in order as a single atomic batch
(no conflict re-validation). -/
def inMemoryZSetTx.Commit (tx : inMemoryZSetTx) (bk : List ZElem) :
    ZSetCommitRes :=
  if tx.done then { backend := bk, tx := tx, err := some .alreadyFinished }
  else
    let tx2 : inMemoryZSetTx := { tx with done := true }
    if tx.ops.isEmpty then { backend := bk, tx := tx2, err := none }
    else
      { backend :=
          tx.ops.foldl
            (fun b op =>
              match op with
              | .add e => bzadd b e
              | .rem m => bzrem b m)
            bk,
        tx := tx2, err := none }

/-- Resolution of a start rank (spec side): negative ranks count from the
end, then the bound is clamped up to 0. -/
def resolveStart (m : Nat) (start : Int) : Int :=
  let s1 := if start < 0 then start + m else start
  if s1 < 0 then 0 else s1

/-- Resolution of a stop rank (spec side): negative ranks count from the
end, then the bound is clamped down to `m - 1`. -/
def resolveStop (m : Nat) (stop : Int) : Int :=
  let t1 := if stop < 0 then stop + m else stop
  if t1 ≥ m then m - 1 else t1

/-- Helper: closed-form characterization of the transactional ZRange — the
sequential clamping of `sliceRange` equals the resolved-and-clamped inclusive
slice of the score-ascending sort, and no slice bound is ever out of range. -/
theorem zrangeView_formula (view : List ZElem) (start stop : Int) :
    inMemoryZSetTx.ZRangeView view start stop
      = some
          (if resolveStart view.length start > resolveStop view.length stop
           then []
           else ((List.insertionSort scoreLE view).drop
                   (resolveStart view.length start).toNat).take
                 (resolveStop view.length stop + 1
                   - resolveStart view.length start).toNat) := by
  have hlen : (List.insertionSort scoreLE view).length = view.length :=
    (List.perm_insertionSort scoreLE view).length_eq
  simp only [inMemoryZSetTx.ZRangeView, sliceRange, goSlice, hlen,
    resolveStart, resolveStop]
  split_ifs <;> first | rfl | omega

/-- C6: for every materialized member list and every start/stop rank pair
(negative ranks counting from the end), the transaction's ZRange never
panics (`some` result), the resolved bounds are clamped into the valid index
range (start at least 0, stop at most `m-1`), the result is empty when the
resolved-clamped start exceeds the resolved-clamped stop, and otherwise it
is the inclusive slice of the score-ascending sort of the view. -/
theorem C6_zrange_clamps_never_panics :
    ∀ (view : List ZElem) (start stop : Int),
      inMemoryZSetTx.ZRangeView view start stop
        = some
            (if resolveStart view.length start > resolveStop view.length stop
             then []
             else ((List.insertionSort scoreLE view).drop
                     (resolveStart view.length start).toNat).take
                   (resolveStop view.length stop + 1
                     - resolveStart view.length start).toNat)
      ∧ 0 ≤ resolveStart view.length start
      ∧ resolveStop view.length stop ≤ (view.length : Int) - 1
      ∧ List.Sorted scoreLE
          ((inMemoryZSetTx.ZRangeView view start stop).getD []) := by
  intro view start stop
  have hsorted := List.sorted_insertionSort scoreLE view
  have heq := zrangeView_formula view start stop
  refine ⟨heq, ?_, ?_, ?_⟩
  · simp only [resolveStart]
    split_ifs <;> omega
  · simp only [resolveStop]
    split_ifs <;> omega
  · rw [heq]
    simp only [Option.getD_some]
    split_ifs with h
    · exact List.sorted_nil
    · exact List.Pairwise.sublist
        ((List.take_sublist _ _).trans (List.drop_sublist _ _)) hsorted

/-- Helper: 64-bit wrap-around is the identity inside the representable
range. -/
theorem wrap64_eq_of_bounds (x : Int) (h1 : -(2 ^ 63) ≤ x) (h2 : x < 2 ^ 63) :
    wrap64 x = x := by
  have h63 : (2 : Int) ^ 63 = 9223372036854775808 := by norm_num
  have h64 : (2 : Int) ^ 64 = 18446744073709551616 := by norm_num
  unfold wrap64
  rw [h63, h64] at *
  rw [Int.emod_eq_of_lt (by omega) (by omega)]
  omega

/-- C10 (counterexample): the claim asserts the operation never errors or
indexes out of bounds for any integer offset and count; but with a filtered
view of two elements, offset 1 and count `2^63 - 1`, the machine addition
`offset + count` wraps to a negative slice bound and the Go slice expression
panics (modelled as `none`). -/
theorem C10_zrevrangebyscore_overflow_panics :
    inMemoryZSetTx.ZRevRangeByScoreView
        [⟨"a", 1⟩, ⟨"b", 2⟩] 10 0 1 (2 ^ 63 - 1) = none := by decide

/-- C10 (amended): for every materialized view and all integer offset and
count whose clamped sum does not overflow a signed 64-bit integer, a
negative offset is treated as 0, a negative count means all remaining
elements, an offset at or past the number of score-filtered elements yields
an empty result, and the returned window is
`[offset, min(offset+count, filtered length))` of the descending-by-score
filtered list; under that no-overflow proviso the operation never errors or
indexes out of bounds. -/
theorem C10_zrevrangebyscore_pagination
    (view : List ZElem) (maxS minS : Rat) (offset count : Int)
    (hof : pageStart offset
        + pageCount ((zrevSorted view maxS minS).length : Int) count
        < 2 ^ 63) :
    inMemoryZSetTx.ZRevRangeByScoreView view maxS minS offset count
      = some (((zrevSorted view maxS minS).drop (pageStart offset).toNat).take
          (min (pageStart offset
                  + pageCount ((zrevSorted view maxS minS).length : Int) count)
               ((zrevSorted view maxS minS).length : Int)
            - pageStart offset).toNat)
    ∧ (pageStart offset ≥ ((zrevSorted view maxS minS).length : Int) →
        inMemoryZSetTx.ZRevRangeByScoreView view maxS minS offset count
          = some [])
    ∧ List.Sorted scoreGE
        ((inMemoryZSetTx.ZRevRangeByScoreView view maxS minS offset count).getD
          []) := by
  have hoc : 0 ≤ pageStart offset := by
    unfold pageStart; split_ifs <;> omega
  have hcc : 0 ≤ pageCount ((zrevSorted view maxS minS).length : Int) count := by
    unfold pageCount; split_ifs <;> omega
  have hwrap :
      wrap64 (pageStart offset
          + pageCount ((zrevSorted view maxS minS).length : Int) count)
        = pageStart offset
          + pageCount ((zrevSorted view maxS minS).length : Int) count :=
    wrap64_eq_of_bounds _ (by omega) hof
  have hsorted : List.Sorted scoreGE (zrevSorted view maxS minS) :=
    List.sorted_insertionSort scoreGE (zscoreFiltered view maxS minS)
  have heq :
      inMemoryZSetTx.ZRevRangeByScoreView view maxS minS offset count
        = some (((zrevSorted view maxS minS).drop (pageStart offset).toNat).take
            (min (pageStart offset
                    + pageCount ((zrevSorted view maxS minS).length : Int) count)
                 ((zrevSorted view maxS minS).length : Int)
              - pageStart offset).toNat) := by
    unfold inMemoryZSetTx.ZRevRangeByScoreView
    by_cases hskip :
        pageStart offset ≥ ((zrevSorted view maxS minS).length : Int)
    · rw [if_pos hskip]
      have htake :
          (min (pageStart offset
                  + pageCount ((zrevSorted view maxS minS).length : Int) count)
               ((zrevSorted view maxS minS).length : Int)
            - pageStart offset).toNat = 0 := by omega
      rw [htake]
      simp
    · rw [if_neg hskip, hwrap]
      unfold goSlice
      dsimp only
      by_cases hend :
          pageStart offset
              + pageCount ((zrevSorted view maxS minS).length : Int) count
            > ((zrevSorted view maxS minS).length : Int)
      · rw [if_pos hend, if_pos (by omega)]
        have hmin :
            min (pageStart offset
                  + pageCount ((zrevSorted view maxS minS).length : Int) count)
                ((zrevSorted view maxS minS).length : Int)
              = ((zrevSorted view maxS minS).length : Int) := by omega
        rw [hmin]
      · rw [if_neg hend, if_pos (by omega)]
        have hmin :
            min (pageStart offset
                  + pageCount ((zrevSorted view maxS minS).length : Int) count)
                ((zrevSorted view maxS minS).length : Int)
              = pageStart offset
                  + pageCount ((zrevSorted view maxS minS).length : Int) count := by
          omega
        rw [hmin]
  refine ⟨heq, ?_, ?_⟩
  · intro hskip
    unfold inMemoryZSetTx.ZRevRangeByScoreView
    rw [if_pos hskip]
  · rw [heq]
    exact List.Pairwise.sublist
      ((List.take_sublist _ _).trans (List.drop_sublist _ _)) hsorted

/-- C10 (witness): the amended pagination characterization applied to a
concrete two-element view with offset 1 and count 5. -/
theorem C10_zrevrangebyscore_pagination_witness :
    pageStart 1
        + pageCount ((zrevSorted [⟨"a", 1⟩, ⟨"b", 2⟩] 10 0).length : Int) 5
      < 2 ^ 63
    ∧ (inMemoryZSetTx.ZRevRangeByScoreView [⟨"a", 1⟩, ⟨"b", 2⟩] 10 0 1 5
        = some (((zrevSorted [⟨"a", 1⟩, ⟨"b", 2⟩] 10 0).drop
              (pageStart 1).toNat).take
            (min (pageStart 1
                    + pageCount
                        ((zrevSorted [⟨"a", 1⟩, ⟨"b", 2⟩] 10 0).length : Int) 5)
                 ((zrevSorted [⟨"a", 1⟩, ⟨"b", 2⟩] 10 0).length : Int)
              - pageStart 1).toNat)
      ∧ (pageStart 1 ≥ ((zrevSorted [⟨"a", 1⟩, ⟨"b", 2⟩] 10 0).length : Int) →
          inMemoryZSetTx.ZRevRangeByScoreView [⟨"a", 1⟩, ⟨"b", 2⟩] 10 0 1 5
            = some [])
      ∧ List.Sorted scoreGE
          ((inMemoryZSetTx.ZRevRangeByScoreView
              [⟨"a", 1⟩, ⟨"b", 2⟩] 10 0 1 5).getD [])) :=
  ⟨by decide, C10_zrevrangebyscore_pagination
      [⟨"a", 1⟩, ⟨"b", 2⟩] 10 0 1 5 (by decide)⟩

/-- Helper: two permuted views have identical score sequences after the
ascending sort (scores are totally ordered, so the sorted score multiset has
a unique enumeration). -/
theorem sorted_score_map_eq (v1 v2 : List ZElem) (hp : v1.Perm v2) :
    (List.insertionSort scoreLE v1).map ZElem.score
      = (List.insertionSort scoreLE v2).map ZElem.score := by
  refine List.eq_of_perm_of_sorted (r := fun x y : Rat => x ≤ y) ?_ ?_ ?_
  · exact ((List.perm_insertionSort scoreLE v1).trans
      (hp.trans (List.perm_insertionSort scoreLE v2).symm)).map ZElem.score
  · exact List.pairwise_map.mpr (List.sorted_insertionSort scoreLE v1)
  · exact List.pairwise_map.mpr (List.sorted_insertionSort scoreLE v2)

/-- Helper: two score-sorted permutations of a list whose members have
pairwise distinct scores are equal. -/
theorem zelem_sorted_perm_nodup_eq :
    ∀ (l1 l2 : List ZElem), l1.Perm l2 → List.Sorted scoreLE l1 →
      List.Sorted scoreLE l2 → (l1.map ZElem.score).Nodup → l1 = l2 := by
  intro l1
  induction l1 with
  | nil =>
    intro l2 hp _ _ _
    exact hp.nil_eq
  | cons a t ih =>
    intro l2 hp hs1 hs2 hn
    cases l2 with
    | nil => simpa using hp.length_eq
    | cons b t2 =>
      have hncons : (a.score :: t.map ZElem.score).Nodup := by
        rw [List.map_cons] at hn
        exact hn
      have hn2 := List.nodup_cons.mp hncons
      have hab : a = b := by
        by_contra hne
        have hbmem : b ∈ a :: t := hp.mem_iff.mpr (List.mem_cons_self b t2)
        have hamem : a ∈ b :: t2 := hp.mem_iff.mp (List.mem_cons_self a t)
        have hbt : b ∈ t := by
          rcases List.mem_cons.mp hbmem with h | h
          · exact absurd h.symm hne
          · exact h
        have hat2 : a ∈ t2 := by
          rcases List.mem_cons.mp hamem with h | h
          · exact absurd h hne
          · exact h
        have h1 : a.score ≤ b.score := List.rel_of_sorted_cons hs1 b hbt
        have h2 : b.score ≤ a.score := List.rel_of_sorted_cons hs2 a hat2
        have hmem : a.score ∈ t.map ZElem.score := by
          rw [le_antisymm h1 h2]
          exact List.mem_map_of_mem ZElem.score hbt
        exact hn2.1 hmem
      subst hab
      have htp : t.Perm t2 := hp.cons_inv
      rw [ih t2 htp hs1.of_cons hs2.of_cons hn2.2]

/-- Helper: the slice expression only looks at scores of the list through its
elements, so lists with equal score sequences slice to results with equal
score sequences (and panic in the same cases). -/
theorem goSlice_score_map (L1 L2 : List ZElem)
    (hm : L1.map ZElem.score = L2.map ZElem.score) (lo hi : Int) :
    Option.map (List.map ZElem.score) (goSlice L1 lo hi)
      = Option.map (List.map ZElem.score) (goSlice L2 lo hi) := by
  have hlen : L1.length = L2.length := by
    have := congrArg List.length hm
    simpa using this
  unfold goSlice
  rw [hlen]
  split_ifs with h
  · simp [List.map_take, List.map_drop, hm]
  · rfl

/-- Helper: the descending sorted filtered views of two permuted views have
equal score sequences. -/
theorem zrev_sorted_score_map_eq (v1 v2 : List ZElem) (maxS minS : Rat)
    (hp : v1.Perm v2) :
    (zrevSorted v1 maxS minS).map ZElem.score
      = (zrevSorted v2 maxS minS).map ZElem.score := by
  haveI : IsAntisymm Rat (fun x y : Rat => y ≤ x) :=
    ⟨fun _ _ h1 h2 => le_antisymm h2 h1⟩
  refine List.eq_of_perm_of_sorted (r := fun x y : Rat => y ≤ x) ?_ ?_ ?_
  · exact ((List.perm_insertionSort scoreGE _).trans
      (((hp.filter _).trans
        (List.perm_insertionSort scoreGE _).symm))).map ZElem.score
  · exact List.pairwise_map.mpr (List.sorted_insertionSort scoreGE _)
  · exact List.pairwise_map.mpr (List.sorted_insertionSort scoreGE _)

/-- C8 (counterexample): two members with equal scores; the map-iteration
orders `[a, b]` and `[b, a]` are both permutations of the canonical
materialized list, yet the two evaluations of ZRange over the full rank range
return different member sequences — the sort breaks the tie by the
unspecified iteration order, which is not stable across evaluations. -/
theorem C8_zrange_tie_order_not_deterministic :
    ([⟨"a", 1⟩, ⟨"b", 1⟩] : List ZElem).Perm (applyOps [⟨"a", 1⟩, ⟨"b", 1⟩] [])
    ∧ ([⟨"b", 1⟩, ⟨"a", 1⟩] : List ZElem).Perm (applyOps [⟨"a", 1⟩, ⟨"b", 1⟩] [])
    ∧ inMemoryZSetTx.ZRangeView [⟨"a", 1⟩, ⟨"b", 1⟩] 0 (-1)
        ≠ inMemoryZSetTx.ZRangeView [⟨"b", 1⟩, ⟨"a", 1⟩] 0 (-1) := by decide

/-- C8 (amended): for every open sorted-set transaction, two evaluations of
ZRange (or ZRevRangeByScore) on the same Snapshot and Operation Log return
sequences with identical score sequences (hence identical lengths and rank
positions), and when no two members of the materialized set share a score
the member sequences are identical; among members with equal scores the
order depends on the unspecified map-iteration order and need not be stable
across evaluations. -/
theorem C8_zrange_deterministic_up_to_ties
    (snap : List ZElem) (ops : List zsetOp) (v1 v2 : List ZElem)
    (h1 : v1.Perm (applyOps snap ops)) (h2 : v2.Perm (applyOps snap ops)) :
    (∀ start stop : Int,
      Option.map (List.map ZElem.score)
          (inMemoryZSetTx.ZRangeView v1 start stop)
        = Option.map (List.map ZElem.score)
            (inMemoryZSetTx.ZRangeView v2 start stop))
    ∧ (∀ (maxS minS : Rat) (offset count : Int),
        Option.map (List.map ZElem.score)
            (inMemoryZSetTx.ZRevRangeByScoreView v1 maxS minS offset count)
          = Option.map (List.map ZElem.score)
              (inMemoryZSetTx.ZRevRangeByScoreView v2 maxS minS offset count))
    ∧ (((applyOps snap ops).map ZElem.score).Nodup →
        ∀ start stop : Int,
          inMemoryZSetTx.ZRangeView v1 start stop
            = inMemoryZSetTx.ZRangeView v2 start stop) := by
  have hpv : v1.Perm v2 := h1.trans h2.symm
  have hlenv : v1.length = v2.length := hpv.length_eq
  refine ⟨?_, ?_, ?_⟩
  · intro start stop
    have hms := sorted_score_map_eq v1 v2 hpv
    rw [zrangeView_formula, zrangeView_formula, hlenv]
    split_ifs with h
    · rfl
    · simp only [Option.map_some']
      rw [List.map_take, List.map_drop, hms, ← List.map_drop, ← List.map_take]
  · intro maxS minS offset count
    have hms := zrev_sorted_score_map_eq v1 v2 maxS minS hpv
    have hlenL : (zrevSorted v1 maxS minS).length
        = (zrevSorted v2 maxS minS).length := by
      have := congrArg List.length hms
      simpa using this
    unfold inMemoryZSetTx.ZRevRangeByScoreView
    dsimp only
    rw [hlenL]
    split_ifs with h hgt
    · rfl
    · exact goSlice_score_map _ _ hms _ _
    · exact goSlice_score_map _ _ hms _ _
  · intro hn start stop
    have hnL : ((List.insertionSort scoreLE v1).map ZElem.score).Nodup := by
      refine (List.Perm.nodup_iff ?_).mpr hn
      exact ((List.perm_insertionSort scoreLE v1).trans h1).map ZElem.score
    have hLeq :
        List.insertionSort scoreLE v1 = List.insertionSort scoreLE v2 :=
      zelem_sorted_perm_nodup_eq _ _
        ((List.perm_insertionSort scoreLE v1).trans
          (hpv.trans (List.perm_insertionSort scoreLE v2).symm))
        (List.sorted_insertionSort scoreLE v1)
        (List.sorted_insertionSort scoreLE v2) hnL
    unfold inMemoryZSetTx.ZRangeView
    rw [hLeq]

/-- C8 (witness): the amended determinism statement applied to the two
iteration orders of a two-member set with distinct scores. -/
theorem C8_zrange_deterministic_up_to_ties_witness :
    ([⟨"b", 2⟩, ⟨"a", 1⟩] : List ZElem).Perm (applyOps [⟨"a", 1⟩, ⟨"b", 2⟩] [])
    ∧ ([⟨"a", 1⟩, ⟨"b", 2⟩] : List ZElem).Perm (applyOps [⟨"a", 1⟩, ⟨"b", 2⟩] [])
    ∧ Option.map (List.map ZElem.score)
          (inMemoryZSetTx.ZRangeView [⟨"b", 2⟩, ⟨"a", 1⟩] 0 (-1))
        = Option.map (List.map ZElem.score)
            (inMemoryZSetTx.ZRangeView [⟨"a", 1⟩, ⟨"b", 2⟩] 0 (-1)) :=
  ⟨by decide, by decide,
    (C8_zrange_deterministic_up_to_ties [⟨"a", 1⟩, ⟨"b", 2⟩] []
        [⟨"b", 2⟩, ⟨"a", 1⟩] [⟨"a", 1⟩, ⟨"b", 2⟩]
        (by decide) (by decide)).1 0 (-1)⟩

/-- Helper: a map insert keeps the payload keys duplicate-free. -/
theorem zinsert_member_nodup (m : List ZElem) (e : ZElem)
    (h : (m.map ZElem.member).Nodup) :
    ((zinsert m e).map ZElem.member).Nodup := by
  unfold zinsert
  split_ifs with hany
  · have hmap :
        (m.map (fun x => if x.member == e.member then e else x)).map
            ZElem.member
          = m.map ZElem.member := by
      rw [List.map_map]
      apply List.map_congr_left
      intro x hx
      dsimp only [Function.comp]
      split_ifs with hx2
      · exact (beq_iff_eq.mp hx2).symm
      · rfl
    rw [hmap]
    exact h
  · rw [List.map_append]
    refine List.nodup_append.mpr ⟨h, List.nodup_singleton _, ?_⟩
    intro a ha hb
    rcases List.mem_map.mp ha with ⟨x, hx, rfl⟩
    have hxe : x.member = e.member := by simpa using hb
    exact hany (List.any_eq_true.mpr ⟨x, hx, beq_iff_eq.mpr hxe⟩)

/-- Helper: a map delete keeps the payload keys duplicate-free. -/
theorem zdelete_member_nodup (m : List ZElem) (b : Bytes)
    (h : (m.map ZElem.member).Nodup) :
    ((zdelete m b).map ZElem.member).Nodup :=
  List.Nodup.sublist ((List.filter_sublist m).map ZElem.member) h

/-- Helper: seeding the member map from the snapshot keeps keys
duplicate-free. -/
theorem foldl_zinsert_member_nodup :
    ∀ (l m : List ZElem), (m.map ZElem.member).Nodup →
      ((l.foldl zinsert m).map ZElem.member).Nodup := by
  intro l
  induction l with
  | nil => intro m h; simpa using h
  | cons a t ih => intro m h; exact ih _ (zinsert_member_nodup m a h)

/-- Helper: replaying the operation log keeps keys duplicate-free. -/
theorem foldl_zstep_member_nodup :
    ∀ (ops : List zsetOp) (m : List ZElem), (m.map ZElem.member).Nodup →
      ((ops.foldl zstep m).map ZElem.member).Nodup := by
  intro ops
  induction ops with
  | nil => intro m h; simpa using h
  | cons op t ih =>
    intro m h
    cases op with
    | add e => exact ih _ (zinsert_member_nodup m e h)
    | rem b => exact ih _ (zdelete_member_nodup m b h)

/-- Helper: the canonical materialized list has duplicate-free payload
keys (it enumerates a Go map keyed by payload). -/
theorem applyOps_member_nodup (snap : List ZElem) (ops : List zsetOp) :
    ((applyOps snap ops).map ZElem.member).Nodup :=
  foldl_zstep_member_nodup ops _
    (foldl_zinsert_member_nodup snap [] (by simp))

/-- Helper: materializing an extended log replays the extension on top of the
materialization of the original log. -/
theorem applyOps_append (snap : List ZElem) (ops more : List zsetOp) :
    applyOps snap (ops ++ more) = more.foldl zstep (applyOps snap ops) := by
  unfold applyOps
  rw [List.foldl_append]

/-- Helper: replaying a batch of removals deletes exactly the listed payload
keys. -/
theorem foldl_rem_eq_filter :
    ∀ (R : List Bytes) (m : List ZElem),
      (R.map zsetOp.rem).foldl zstep m
        = m.filter (fun x => decide (¬ x.member ∈ R)) := by
  intro R
  induction R with
  | nil =>
    intro m
    simp
  | cons b t ih =>
    intro m
    simp only [List.map_cons, List.foldl_cons]
    rw [ih (zstep m (.rem b))]
    show (zdelete m b).filter _ = _
    unfold zdelete
    rw [List.filter_filter]
    apply List.filter_congr
    intro x hx
    rcases Decidable.em (x.member = b) with h1 | h1 <;>
      rcases Decidable.em (x.member ∈ t) with h2 | h2 <;>
        simp [h1, h2]

/-- Helper: filtering the materialized list by the keys of the dropped
suffix of any permutation of it leaves exactly the kept section (payload
keys are duplicate-free). -/
theorem filter_drop_members_perm_take (sorted V : List ZElem) (k : Nat)
    (hp : sorted.Perm V) (hnd : (V.map ZElem.member).Nodup) :
    (V.filter
        (fun x => decide (¬ x.member ∈ (sorted.drop k).map ZElem.member))).Perm
      (sorted.take k) := by
  have hsplit : sorted.take k ++ sorted.drop k = sorted :=
    List.take_append_drop k sorted
  have hVp : V.Perm (sorted.take k ++ sorted.drop k) := by
    rw [hsplit]
    exact hp.symm
  have hperm2 := hVp.filter
    (fun x => decide (¬ x.member ∈ (sorted.drop k).map ZElem.member))
  rw [List.filter_append] at hperm2
  have hndS : (sorted.map ZElem.member).Nodup :=
    (List.Perm.nodup_iff (hp.map ZElem.member)).mpr hnd
  have hndSplit :
      ((sorted.take k).map ZElem.member
        ++ (sorted.drop k).map ZElem.member).Nodup := by
    rw [← List.map_append, hsplit]
    exact hndS
  have hdisj := List.disjoint_of_nodup_append hndSplit
  have hA :
      (sorted.take k).filter
          (fun x => decide (¬ x.member ∈ (sorted.drop k).map ZElem.member))
        = sorted.take k := by
    apply List.filter_eq_self.mpr
    intro x hx
    have hnotin : ¬ x.member ∈ (sorted.drop k).map ZElem.member :=
      fun hmem => hdisj (List.mem_map_of_mem ZElem.member hx) hmem
    simpa using hnotin
  have hB :
      (sorted.drop k).filter
          (fun x => decide (¬ x.member ∈ (sorted.drop k).map ZElem.member))
        = [] := by
    apply List.filter_eq_nil_iff.mpr
    intro x hx
    have hmem : x.member ∈ (sorted.drop k).map ZElem.member :=
      List.mem_map_of_mem ZElem.member hx
    have hmem2 : x.member ∈ (sorted.map ZElem.member).drop k := by
      rw [← List.map_drop]
      exact hmem
    simp [hmem, hmem2]
  rw [hA, hB, List.append_nil] at hperm2
  exact hperm2

/-- Helper: `ZREMRANGEBYRANK key n -1` on a backend with more than `n`
members keeps exactly the first `n` ranks. -/
theorem zremRangeByRank_tail (bk : List ZElem) (n : Int) (h0 : 0 ≤ n)
    (hlt : n < (bk.length : Int)) :
    zremRangeByRank bk n (-1) = bk.take n.toNat := by
  unfold zremRangeByRank
  dsimp only
  rw [if_neg (by omega : ¬ n < 0), if_pos (by norm_num : (-1 : Int) < 0),
    if_neg (by omega : ¬ n < 0),
    if_neg (by omega : ¬ (-1 + (bk.length : Int) ≥ (bk.length : Int))),
    if_neg (by omega : ¬ (n > -1 + (bk.length : Int)))]
  rw [show ((-1 + (bk.length : Int)).toNat + 1) = bk.length by omega,
    List.drop_length, List.append_nil]

/-- Helper: `ZREMRANGEBYRANK key 0 (card-n-1)` on a backend with more than
`n` members keeps exactly the last `n` ranks. -/
theorem zremRangeByRank_head (bk : List ZElem) (n : Int) (h0 : 0 ≤ n)
    (hlt : n < (bk.length : Int)) :
    zremRangeByRank bk 0 ((bk.length : Int) - n - 1)
      = bk.drop (bk.length - n.toNat) := by
  unfold zremRangeByRank
  dsimp only
  rw [if_neg (by omega : ¬ (0 : Int) < 0),
    if_neg (by omega : ¬ ((bk.length : Int) - n - 1) < 0),
    if_neg (by omega : ¬ (0 : Int) < 0),
    if_neg (by omega :
      ¬ ((bk.length : Int) - n - 1 ≥ (bk.length : Int))),
    if_neg (by omega : ¬ ((0 : Int) > (bk.length : Int) - n - 1))]
  rw [show (((bk.length : Int) - n - 1).toNat + 1) = bk.length - n.toNat
      by omega,
    show (0 : Int).toNat = 0 by rfl, List.take_zero, List.nil_append]

/-- C5: Ordered-set trim semantics.  Transaction variant: when the
materialized view (any iteration order of the member map) has more than `n`
members, `ZTrimByTopN` appends a Remove operation for every member outside
the retained top-`n` of the ascending sort, so the subsequently materialized
view is exactly (a permutation of) those `n` members, each with score at
most every removed member's score; when the view has at most `n` members
nothing is appended.  `ZRevTrimByTopN` symmetrically keeps the `n`
highest-score members.  Direct-store variant: on a score-ascending backend,
`ZTrimByTopN` keeps exactly the first `n` ranks (the lowest scores) and
`ZRevTrimByTopN` exactly the last `n` ranks (the highest scores), removing
nothing when the cardinality is at most `n`. -/
theorem C5_trim_top_n :
    (∀ (tx : inMemoryZSetTx) (merged : List ZElem) (n : Int),
      merged.Perm (applyOps tx.snapshot tx.ops) → 0 ≤ n →
        (((List.insertionSort scoreLE merged).length : Int) ≤ n →
            tx.ZTrimByTopNView merged n = tx)
        ∧ (n < ((List.insertionSort scoreLE merged).length : Int) →
            (tx.ZTrimByTopNView merged n).ops
              = tx.ops ++ ((List.insertionSort scoreLE merged).drop
                  n.toNat).map (fun e => zsetOp.rem e.member)
            ∧ (applyOps tx.snapshot (tx.ZTrimByTopNView merged n).ops).Perm
                ((List.insertionSort scoreLE merged).take n.toNat)
            ∧ (applyOps tx.snapshot (tx.ZTrimByTopNView merged n).ops).length
                = n.toNat
            ∧ ∀ kept ∈ (List.insertionSort scoreLE merged).take n.toNat,
                ∀ removed ∈ (List.insertionSort scoreLE merged).drop n.toNat,
                  kept.score ≤ removed.score))
    ∧ (∀ (tx : inMemoryZSetTx) (merged : List ZElem) (n : Int),
      merged.Perm (applyOps tx.snapshot tx.ops) → 0 ≤ n →
        (((List.insertionSort scoreGE merged).length : Int) ≤ n →
            tx.ZRevTrimByTopNView merged n = tx)
        ∧ (n < ((List.insertionSort scoreGE merged).length : Int) →
            (applyOps tx.snapshot (tx.ZRevTrimByTopNView merged n).ops).Perm
                ((List.insertionSort scoreGE merged).take n.toNat)
            ∧ (applyOps tx.snapshot (tx.ZRevTrimByTopNView merged n).ops).length
                = n.toNat
            ∧ ∀ kept ∈ (List.insertionSort scoreGE merged).take n.toNat,
                ∀ removed ∈ (List.insertionSort scoreGE merged).drop n.toNat,
                  removed.score ≤ kept.score))
    ∧ (∀ (bk : List ZElem) (n : Int), List.Sorted scoreLE bk → 0 ≤ n →
        (((bk.length : Int) ≤ n → redisZSet.ZTrimByTopN bk n = bk)
        ∧ (n < (bk.length : Int) →
            redisZSet.ZTrimByTopN bk n = bk.take n.toNat
            ∧ ∀ kept ∈ bk.take n.toNat, ∀ removed ∈ bk.drop n.toNat,
                kept.score ≤ removed.score)))
    ∧ (∀ (bk : List ZElem) (n : Int), List.Sorted scoreLE bk → 0 ≤ n →
        (((bk.length : Int) ≤ n → redisZSet.ZRevTrimByTopN bk n = bk)
        ∧ (n < (bk.length : Int) →
            redisZSet.ZRevTrimByTopN bk n = bk.drop (bk.length - n.toNat)
            ∧ ∀ removed ∈ bk.take (bk.length - n.toNat),
                ∀ kept ∈ bk.drop (bk.length - n.toNat),
                  removed.score ≤ kept.score))) := by
  refine ⟨?_, ?_, ?_, ?_⟩
  · intro tx merged n hp hn
    constructor
    · intro hle
      unfold inMemoryZSetTx.ZTrimByTopNView
      rw [if_pos hle]
    · intro hlt
      have hops : (tx.ZTrimByTopNView merged n).ops
          = tx.ops ++ ((List.insertionSort scoreLE merged).drop
              n.toNat).map (fun e => zsetOp.rem e.member) := by
        unfold inMemoryZSetTx.ZTrimByTopNView
        rw [if_neg (by omega)]
      have hmapcomp :
          ((List.insertionSort scoreLE merged).drop n.toNat).map
              (fun e => zsetOp.rem e.member)
            = (((List.insertionSort scoreLE merged).drop n.toNat).map
                ZElem.member).map zsetOp.rem := by
        rw [List.map_map]
        rfl
      have hperm :
          (applyOps tx.snapshot (tx.ZTrimByTopNView merged n).ops).Perm
            ((List.insertionSort scoreLE merged).take n.toNat) := by
        rw [hops, applyOps_append, hmapcomp, foldl_rem_eq_filter]
        exact filter_drop_members_perm_take _ _ _
          ((List.perm_insertionSort scoreLE merged).trans hp)
          (applyOps_member_nodup _ _)
      refine ⟨hops, hperm, ?_, ?_⟩
      · rw [hperm.length_eq, List.length_take]
        omega
      · have hs := List.sorted_insertionSort scoreLE merged
        have hpair :
            List.Pairwise scoreLE
              ((List.insertionSort scoreLE merged).take n.toNat
                ++ (List.insertionSort scoreLE merged).drop n.toNat) := by
          rw [List.take_append_drop]
          exact hs
        intro kept hk removed hr
        exact (List.pairwise_append.mp hpair).2.2 kept hk removed hr
  · intro tx merged n hp hn
    constructor
    · intro hle
      unfold inMemoryZSetTx.ZRevTrimByTopNView
      rw [if_pos hle]
    · intro hlt
      have hops : (tx.ZRevTrimByTopNView merged n).ops
          = tx.ops ++ ((List.insertionSort scoreGE merged).drop
              n.toNat).map (fun e => zsetOp.rem e.member) := by
        unfold inMemoryZSetTx.ZRevTrimByTopNView
        rw [if_neg (by omega)]
      have hmapcomp :
          ((List.insertionSort scoreGE merged).drop n.toNat).map
              (fun e => zsetOp.rem e.member)
            = (((List.insertionSort scoreGE merged).drop n.toNat).map
                ZElem.member).map zsetOp.rem := by
        rw [List.map_map]
        rfl
      have hperm :
          (applyOps tx.snapshot (tx.ZRevTrimByTopNView merged n).ops).Perm
            ((List.insertionSort scoreGE merged).take n.toNat) := by
        rw [hops, applyOps_append, hmapcomp, foldl_rem_eq_filter]
        exact filter_drop_members_perm_take _ _ _
          ((List.perm_insertionSort scoreGE merged).trans hp)
          (applyOps_member_nodup _ _)
      refine ⟨hperm, ?_, ?_⟩
      · rw [hperm.length_eq, List.length_take]
        omega
      · have hs := List.sorted_insertionSort scoreGE merged
        have hpair :
            List.Pairwise scoreGE
              ((List.insertionSort scoreGE merged).take n.toNat
                ++ (List.insertionSort scoreGE merged).drop n.toNat) := by
          rw [List.take_append_drop]
          exact hs
        intro kept hk removed hr
        exact (List.pairwise_append.mp hpair).2.2 kept hk removed hr
  · intro bk n hs hn
    constructor
    · intro hle
      unfold redisZSet.ZTrimByTopN
      rw [if_pos hle]
    · intro hlt
      constructor
      · unfold redisZSet.ZTrimByTopN
        rw [if_neg (by omega)]
        exact zremRangeByRank_tail bk n hn hlt
      · have hpair :
            List.Pairwise scoreLE (bk.take n.toNat ++ bk.drop n.toNat) := by
          rw [List.take_append_drop]
          exact hs
        intro kept hk removed hr
        exact (List.pairwise_append.mp hpair).2.2 kept hk removed hr
  · intro bk n hs hn
    constructor
    · intro hle
      unfold redisZSet.ZRevTrimByTopN
      rw [if_pos hle]
    · intro hlt
      constructor
      · unfold redisZSet.ZRevTrimByTopN
        rw [if_neg (by omega)]
        exact zremRangeByRank_head bk n hn hlt
      · have hpair :
            List.Pairwise scoreLE
              (bk.take (bk.length - n.toNat)
                ++ bk.drop (bk.length - n.toNat)) := by
          rw [List.take_append_drop]
          exact hs
        intro removed hr kept hk
        exact (List.pairwise_append.mp hpair).2.2 removed hr kept hk

/-- C5 (witness): the spec's example — members with scores 50, 100, 200;
`TrimToTopN 2` retains exactly the two lowest scores, on the direct store
and in a fresh transaction. -/
theorem C5_trim_top_n_witness :
    ([⟨"c", 200⟩, ⟨"a", 50⟩, ⟨"b", 100⟩] : List ZElem).Perm
        (applyOps (redisZSet.BeginTx
            [⟨"a", 50⟩, ⟨"b", 100⟩, ⟨"c", 200⟩]).snapshot
          (redisZSet.BeginTx [⟨"a", 50⟩, ⟨"b", 100⟩, ⟨"c", 200⟩]).ops)
    ∧ (0 : Int) ≤ 2
    ∧ List.Sorted scoreLE ([⟨"a", 50⟩, ⟨"b", 100⟩, ⟨"c", 200⟩] : List ZElem)
    ∧ ((2 : Int) < (([⟨"a", 50⟩, ⟨"b", 100⟩, ⟨"c", 200⟩] :
          List ZElem).length : Int) →
        redisZSet.ZTrimByTopN [⟨"a", 50⟩, ⟨"b", 100⟩, ⟨"c", 200⟩] 2
          = ([⟨"a", 50⟩, ⟨"b", 100⟩, ⟨"c", 200⟩] : List ZElem).take
              (2 : Int).toNat
        ∧ ∀ kept ∈ ([⟨"a", 50⟩, ⟨"b", 100⟩, ⟨"c", 200⟩] :
              List ZElem).take (2 : Int).toNat,
            ∀ removed ∈ ([⟨"a", 50⟩, ⟨"b", 100⟩, ⟨"c", 200⟩] :
                List ZElem).drop (2 : Int).toNat,
              kept.score ≤ removed.score)
    ∧ ((2 : Int) < ((List.insertionSort scoreLE
          [⟨"c", 200⟩, ⟨"a", 50⟩, ⟨"b", 100⟩]).length : Int) →
        ((redisZSet.BeginTx
              [⟨"a", 50⟩, ⟨"b", 100⟩, ⟨"c", 200⟩]).ZTrimByTopNView
            [⟨"c", 200⟩, ⟨"a", 50⟩, ⟨"b", 100⟩] 2).ops
          = (redisZSet.BeginTx [⟨"a", 50⟩, ⟨"b", 100⟩, ⟨"c", 200⟩]).ops
            ++ ((List.insertionSort scoreLE
                  [⟨"c", 200⟩, ⟨"a", 50⟩, ⟨"b", 100⟩]).drop
                (2 : Int).toNat).map (fun e => zsetOp.rem e.member)
        ∧ (applyOps (redisZSet.BeginTx
              [⟨"a", 50⟩, ⟨"b", 100⟩, ⟨"c", 200⟩]).snapshot
            ((redisZSet.BeginTx
                [⟨"a", 50⟩, ⟨"b", 100⟩, ⟨"c", 200⟩]).ZTrimByTopNView
              [⟨"c", 200⟩, ⟨"a", 50⟩, ⟨"b", 100⟩] 2).ops).Perm
            ((List.insertionSort scoreLE
                [⟨"c", 200⟩, ⟨"a", 50⟩, ⟨"b", 100⟩]).take (2 : Int).toNat)
        ∧ (applyOps (redisZSet.BeginTx
              [⟨"a", 50⟩, ⟨"b", 100⟩, ⟨"c", 200⟩]).snapshot
            ((redisZSet.BeginTx
                [⟨"a", 50⟩, ⟨"b", 100⟩, ⟨"c", 200⟩]).ZTrimByTopNView
              [⟨"c", 200⟩, ⟨"a", 50⟩, ⟨"b", 100⟩] 2).ops).length
            = (2 : Int).toNat
        ∧ ∀ kept ∈ (List.insertionSort scoreLE
              [⟨"c", 200⟩, ⟨"a", 50⟩, ⟨"b", 100⟩]).take (2 : Int).toNat,
            ∀ removed ∈ (List.insertionSort scoreLE
                [⟨"c", 200⟩, ⟨"a", 50⟩, ⟨"b", 100⟩]).drop (2 : Int).toNat,
              kept.score ≤ removed.score) :=
  ⟨by decide, by decide, by decide,
    (C5_trim_top_n.2.2.1 [⟨"a", 50⟩, ⟨"b", 100⟩, ⟨"c", 200⟩] 2
        (by decide) (by decide)).2,
    (C5_trim_top_n.1 (redisZSet.BeginTx [⟨"a", 50⟩, ⟨"b", 100⟩, ⟨"c", 200⟩])
        [⟨"c", 200⟩, ⟨"a", 50⟩, ⟨"b", 100⟩] 2 (by decide) (by decide)).2⟩

/-- Helper: a KV Commit always leaves the transaction finished. -/
theorem kv_commit_done (tx : inMemoryKVTx) (b : Option Bytes) :
    (tx.Commit b).tx.done = true := by
  unfold inMemoryKVTx.Commit
  dsimp only
  split_ifs with h <;> first | exact h | rfl

/-- Helper: a Hash Commit always leaves the transaction finished. -/
theorem hash_commit_done (tx : inMemoryHashTx) (b : List (String × Bytes)) :
    (tx.Commit b).tx.done = true := by
  unfold inMemoryHashTx.Commit
  dsimp only
  split_ifs with h <;> first | exact h | rfl

/-- Helper: a sorted-set Commit always leaves the transaction finished. -/
theorem zset_commit_done (tx : inMemoryZSetTx) (b : List ZElem) :
    (tx.Commit b).tx.done = true := by
  unfold inMemoryZSetTx.Commit
  dsimp only
  split_ifs with h <;> first | exact h | rfl

/-- C2 (counterexample): buffered mutations invoked after a completed
terminal call do not fail — they take effect on the transaction state.  A
`ZAdd` after `Rollback` appends to the operation log (the source returns a
nil error; its body never consults the finished flag), and likewise `HSet`
after a Hash `Rollback` and `Set` after a KV `Rollback`. -/
theorem C2_buffered_op_after_rollback_takes_effect :
    ((((redisZSet.BeginTx []).Rollback).ZAdd ⟨"a", 1⟩).ops
        = [zsetOp.add ⟨"a", 1⟩]
      ∧ ((redisZSet.BeginTx []).Rollback).done = true)
    ∧ ((((redisHash.BeginTx []).Rollback).HSet "f" "v").opQueue
        = [⟨true, "f", "v"⟩]
      ∧ ((redisHash.BeginTx []).Rollback).done = true)
    ∧ ((((redisKV.BeginTx none).Rollback).Set "w").written = true
      ∧ (((redisKV.BeginTx none).Rollback).Set "w").write = "w"
      ∧ ((redisKV.BeginTx none).Rollback).done = true) := by decide

/-- C2 (amended): only `Commit` consults the finished flag — a `Commit`
invoked after a completed terminal call (a previous Commit or a Rollback)
fails with the already-finished error and leaves the backend untouched, for
all three transaction kinds; the buffered mutation operations
(`Set`/`HSet`/`HDel`/`ZAdd`/`ZRem`) never consult the flag and keep
operating on the in-memory transaction state (still without backend
effect). -/
theorem C2_only_commit_checks_finished :
    (∀ (tx : inMemoryKVTx) (b b2 : Option Bytes),
      ((tx.Commit b).tx.Commit b2).err = some .alreadyFinished
      ∧ ((tx.Commit b).tx.Commit b2).backend = b2
      ∧ ((tx.Rollback).Commit b).err = some .alreadyFinished
      ∧ ((tx.Rollback).Commit b).backend = b)
    ∧ (∀ (tx : inMemoryHashTx) (b b2 : List (String × Bytes)),
      ((tx.Commit b).tx.Commit b2).err = some .alreadyFinished
      ∧ ((tx.Commit b).tx.Commit b2).backend = b2
      ∧ ((tx.Rollback).Commit b).err = some .alreadyFinished
      ∧ ((tx.Rollback).Commit b).backend = b)
    ∧ (∀ (tx : inMemoryZSetTx) (b b2 : List ZElem),
      ((tx.Commit b).tx.Commit b2).err = some .alreadyFinished
      ∧ ((tx.Commit b).tx.Commit b2).backend = b2
      ∧ ((tx.Rollback).Commit b).err = some .alreadyFinished
      ∧ ((tx.Rollback).Commit b).backend = b)
    ∧ (∀ (tx : inMemoryZSetTx) (e : ZElem) (b : Bytes),
      ((tx.Rollback).ZAdd e).ops = tx.ops ++ [.add e]
      ∧ ((tx.Rollback).ZRem b).ops = tx.ops ++ [.rem b])
    ∧ (∀ (tx : inMemoryHashTx) (f : String) (v : Bytes) (fs : List String),
      ((tx.Rollback).HSet f v).opQueue = tx.opQueue ++ [⟨true, f, v⟩]
      ∧ ((tx.Rollback).HDel fs).opQueue
          = tx.opQueue ++ fs.map (fun g => ⟨false, g, ""⟩))
    ∧ (∀ (tx : inMemoryKVTx) (w : Bytes),
      ((tx.Rollback).Set w).write = w
      ∧ ((tx.Rollback).Set w).written = true) := by
  refine ⟨?_, ?_, ?_, ?_, ?_, ?_⟩
  · intro tx b b2
    set t2 := (tx.Commit b).tx with ht2
    have hd : t2.done = true := by
      rw [ht2]
      exact kv_commit_done tx b
    have h1 : t2.Commit b2 = ⟨b2, t2, some .alreadyFinished⟩ := by
      unfold inMemoryKVTx.Commit
      rw [if_pos hd]
    have hd2 : (tx.Rollback).done = true := rfl
    have h2 : (tx.Rollback).Commit b
        = ⟨b, tx.Rollback, some .alreadyFinished⟩ := by
      unfold inMemoryKVTx.Commit
      rw [if_pos hd2]
    exact ⟨by rw [h1], by rw [h1], by rw [h2], by rw [h2]⟩
  · intro tx b b2
    set t2 := (tx.Commit b).tx with ht2
    have hd : t2.done = true := by
      rw [ht2]
      exact hash_commit_done tx b
    have h1 : t2.Commit b2 = ⟨b2, t2, some .alreadyFinished⟩ := by
      unfold inMemoryHashTx.Commit
      rw [if_pos hd]
    have hd2 : (tx.Rollback).done = true := rfl
    have h2 : (tx.Rollback).Commit b
        = ⟨b, tx.Rollback, some .alreadyFinished⟩ := by
      unfold inMemoryHashTx.Commit
      rw [if_pos hd2]
    exact ⟨by rw [h1], by rw [h1], by rw [h2], by rw [h2]⟩
  · intro tx b b2
    set t2 := (tx.Commit b).tx with ht2
    have hd : t2.done = true := by
      rw [ht2]
      exact zset_commit_done tx b
    have h1 : t2.Commit b2 = ⟨b2, t2, some .alreadyFinished⟩ := by
      unfold inMemoryZSetTx.Commit
      rw [if_pos hd]
    have hd2 : (tx.Rollback).done = true := rfl
    have h2 : (tx.Rollback).Commit b
        = ⟨b, tx.Rollback, some .alreadyFinished⟩ := by
      unfold inMemoryZSetTx.Commit
      rw [if_pos hd2]
    exact ⟨by rw [h1], by rw [h1], by rw [h2], by rw [h2]⟩
  · intro tx e b
    exact ⟨rfl, rfl⟩
  · intro tx f v fs
    exact ⟨rfl, rfl⟩
  · intro tx w
    exact ⟨rfl, rfl⟩

/-! ## Frame property of open transactions (C4)

Every non-Commit transaction method of the source
(`Set`/`Get`/`HSet`/`HGet`/`HGetAll`/`HDel`/`ZAdd`/`ZRem`/`ZRange`/
`ZRevRangeByScore`/`ZTrimByTopN`/`ZRevTrimByTopN`/`Rollback`) touches only
the fields of the transaction record under its mutex and never
`tx.base.client`, so its embedding acts on the pair (backend state,
transaction state) leaving the backend component untouched; `Commit` is the
only backend-facing method and is deliberately absent from the call
alphabets. -/

/-- Calls available on an open KV transaction, `Commit` excluded. -/
inductive kvCall where
  | set (b : Bytes)
  | get
  | rollback
deriving DecidableEq, Repr

/-- Effect of a KV transaction call on (backend, transaction). -/
def kvStep (st : Option Bytes × inMemoryKVTx) (c : kvCall) :
    Option Bytes × inMemoryKVTx :=
  match c with
  | .set b => (st.1, st.2.Set b)
  | .get => st
  | .rollback => (st.1, st.2.Rollback)

/-- Calls available on an open Hash transaction, `Commit` excluded. -/
inductive hashCall where
  | hset (f : String) (v : Bytes)
  | hdel (fields : List String)
  | hget (f : String)
  | hgetall
  | rollback
deriving DecidableEq, Repr

/-- Effect of a Hash transaction call on (backend, transaction). -/
def hashStep (st : List (String × Bytes) × inMemoryHashTx) (c : hashCall) :
    List (String × Bytes) × inMemoryHashTx :=
  match c with
  | .hset f v => (st.1, st.2.HSet f v)
  | .hdel fs => (st.1, st.2.HDel fs)
  | .hget _ => st
  | .hgetall => st
  | .rollback => (st.1, st.2.Rollback)

/-- Calls available on an open sorted-set transaction, `Commit` excluded.
The trim calls carry the map-iteration order (`view`) the source observed
when materializing. -/
inductive zsetCall where
  | zadd (e : ZElem)
  | zrem (b : Bytes)
  | zrange (s t : Int)
  | zrevrangebyscore (maxS minS : Rat) (o c : Int)
  | ztrim (n : Int) (view : List ZElem)
  | zrevtrim (n : Int) (view : List ZElem)
  | rollback
deriving DecidableEq, Repr

/-- Effect of a sorted-set transaction call on (backend, transaction). -/
def zsetStep (st : List ZElem × inMemoryZSetTx) (c : zsetCall) :
    List ZElem × inMemoryZSetTx :=
  match c with
  | .zadd e => (st.1, st.2.ZAdd e)
  | .zrem b => (st.1, st.2.ZRem b)
  | .zrange _ _ => st
  | .zrevrangebyscore _ _ _ _ => st
  | .ztrim n view => (st.1, st.2.ZTrimByTopNView view n)
  | .zrevtrim n view => (st.1, st.2.ZRevTrimByTopNView view n)
  | .rollback => (st.1, st.2.Rollback)

/-- Helper: no single KV call changes the backend. -/
theorem kvStep_fst (st : Option Bytes × inMemoryKVTx) (c : kvCall) :
    (kvStep st c).1 = st.1 := by
  cases c <;> rfl

/-- Helper: no single Hash call changes the backend. -/
theorem hashStep_fst (st : List (String × Bytes) × inMemoryHashTx)
    (c : hashCall) : (hashStep st c).1 = st.1 := by
  cases c <;> rfl

/-- Helper: no single sorted-set call changes the backend. -/
theorem zsetStep_fst (st : List ZElem × inMemoryZSetTx) (c : zsetCall) :
    (zsetStep st c).1 = st.1 := by
  cases c <;> rfl

/-- Helper: fold of backend-preserving steps preserves the backend. -/
theorem foldl_fst_eq {σ β : Type} (step : σ × β → γ → σ × β)
    (hstep : ∀ st c, (step st c).1 = st.1) :
    ∀ (calls : List γ) (st : σ × β),
      (calls.foldl step st).1 = st.1 := by
  intro calls
  induction calls with
  | nil => intro st; rfl
  | cons c t ih =>
    intro st
    rw [List.foldl_cons, ih (step st c), hstep st c]

/-- C4: for every transaction kind and every sequence of buffered
operations and reads (including a trailing or interior Rollback — any
sequence not containing Commit), the backend state after replaying the
sequence from BeginTx equals the backend state at BeginTx time; since every
prefix of such a sequence is such a sequence, the backend is unchanged at
every point before Commit, and Rollback itself issues no backend write. -/
theorem C4_no_backend_mutation_before_commit :
    (∀ (calls : List kvCall) (b0 : Option Bytes),
        (calls.foldl kvStep (b0, redisKV.BeginTx b0)).1 = b0)
    ∧ (∀ (calls : List hashCall) (b0 : List (String × Bytes)),
        (calls.foldl hashStep (b0, redisHash.BeginTx b0)).1 = b0)
    ∧ (∀ (calls : List zsetCall) (b0 : List ZElem),
        (calls.foldl zsetStep (b0, redisZSet.BeginTx b0)).1 = b0) :=
  ⟨fun calls b0 => foldl_fst_eq kvStep kvStep_fst calls (b0, redisKV.BeginTx b0),
   fun calls b0 =>
     foldl_fst_eq hashStep hashStep_fst calls (b0, redisHash.BeginTx b0),
   fun calls b0 =>
     foldl_fst_eq zsetStep zsetStep_fst calls (b0, redisZSet.BeginTx b0)⟩

/-! ## Registry / Manager — `StorageManager` (src/unnamed/part_001)

One name-to-instance Go map per structure type, modelled as association
lists with distinct keys.  A registered instance is the store the manager
constructs from its shared client and the name (e.g.
`NewRedisKV(m.redisClient, name)`); it is fully determined by the bound key,
so an instance is represented by that key string. -/

/-- Registry state of `StorageManager` (part_001 lines 35-46); the shared
Redis client and context are connection state and not modelled. -/
structure StorageManager where
  kvs : List (String × String)
  hashs : List (String × String)
  zsets : List (String × String)
  memHashs : List (String × String)
deriving DecidableEq, Repr

/-- `NewManager` (part_001 lines 99-106): all four registries start empty. -/
def NewManager : StorageManager :=
  { kvs := [], hashs := [], zsets := [], memHashs := [] }

/-- `StorageManager.RegisterKVStorage` (part_001 lines 126-135): fails with
the duplicate-registration error when the name is taken, else stores
`NewRedisKV(m.redisClient, name)` under the name. -/
def StorageManager.RegisterKVStorage (m : StorageManager) (name : String) :
    StorageManager × Option StErr :=
  if (m.kvs.lookup name).isSome then (m, some .duplicateRegistration)
  else ({ m with kvs := m.kvs ++ [(name, name)] }, none)

/-- `StorageManager.RegisterHashStorage` (part_001 lines 138-146). -/
def StorageManager.RegisterHashStorage (m : StorageManager) (name : String) :
    StorageManager × Option StErr :=
  if (m.hashs.lookup name).isSome then (m, some .duplicateRegistration)
  else ({ m with hashs := m.hashs ++ [(name, name)] }, none)

/-- `StorageManager.RegisterSortedSetStorage` (part_001 lines 149-157). -/
def StorageManager.RegisterSortedSetStorage (m : StorageManager)
    (name : String) : StorageManager × Option StErr :=
  if (m.zsets.lookup name).isSome then (m, some .duplicateRegistration)
  else ({ m with zsets := m.zsets ++ [(name, name)] }, none)

/-- `StorageManager.RegisterMemoryHash` (part_001 lines 160-168). -/
def StorageManager.RegisterMemoryHash (m : StorageManager) (name : String) :
    StorageManager × Option StErr :=
  if (m.memHashs.lookup name).isSome then (m, some .duplicateRegistration)
  else ({ m with memHashs := m.memHashs ++ [(name, name)] }, none)

/-- `StorageManager.GetKV` (part_001 lines 171-178): the registered instance,
or a not-found error. -/
def StorageManager.GetKV (m : StorageManager) (name : String) :
    Except StErr String :=
  match m.kvs.lookup name with
  | some s => .ok s
  | none => .error .notFound

/-- `StorageManager.GetHash` (part_001 lines 181-188). -/
def StorageManager.GetHash (m : StorageManager) (name : String) :
    Except StErr String :=
  match m.hashs.lookup name with
  | some s => .ok s
  | none => .error .notFound

/-- `StorageManager.GetSortedSet` (part_001 lines 191-198). -/
def StorageManager.GetSortedSet (m : StorageManager) (name : String) :
    Except StErr String :=
  match m.zsets.lookup name with
  | some s => .ok s
  | none => .error .notFound

/-- `StorageManager.GetMemoryHash` (part_001 lines 201-208). -/
def StorageManager.GetMemoryHash (m : StorageManager) (name : String) :
    Except StErr String :=
  match m.memHashs.lookup name with
  | some s => .ok s
  | none => .error .notFound

/-- Helper: appending a fresh binding makes it the lookup result. -/
theorem lookup_append_fresh {α : Type} (l : List (String × α)) (name : String)
    (v : α) (h : l.lookup name = none) :
    (l ++ [(name, v)]).lookup name = some v := by
  induction l with
  | nil => simp [List.lookup]
  | cons p t ih =>
    rcases p with ⟨k, w⟩
    rw [List.cons_append]
    by_cases hk : (name == k : Bool)
    · exfalso
      simp [List.lookup, hk] at h
    · simp only [List.lookup, hk]
      apply ih
      simpa [List.lookup, hk] using h

/-- C7: for every Manager and each structure type, registering a
currently-registered name fails with the duplicate-registration error and
leaves the registry unchanged (so the first-registered instance is still
returned by Get), a Get of an unregistered name fails with the not-found
error, and a first registration of a fresh name succeeds and makes the
instance retrievable by Get. -/
theorem C7_registry_duplicate_and_lookup :
    (∀ (m : StorageManager) (name inst : String),
      (m.GetKV name = .ok inst →
        m.RegisterKVStorage name = (m, some .duplicateRegistration)
        ∧ (m.RegisterKVStorage name).1.GetKV name = .ok inst)
      ∧ (m.kvs.lookup name = none →
        m.GetKV name = .error .notFound
        ∧ (m.RegisterKVStorage name).2 = none
        ∧ (m.RegisterKVStorage name).1.GetKV name = .ok name))
    ∧ (∀ (m : StorageManager) (name inst : String),
      (m.GetHash name = .ok inst →
        m.RegisterHashStorage name = (m, some .duplicateRegistration)
        ∧ (m.RegisterHashStorage name).1.GetHash name = .ok inst)
      ∧ (m.hashs.lookup name = none →
        m.GetHash name = .error .notFound
        ∧ (m.RegisterHashStorage name).2 = none
        ∧ (m.RegisterHashStorage name).1.GetHash name = .ok name))
    ∧ (∀ (m : StorageManager) (name inst : String),
      (m.GetSortedSet name = .ok inst →
        m.RegisterSortedSetStorage name = (m, some .duplicateRegistration)
        ∧ (m.RegisterSortedSetStorage name).1.GetSortedSet name = .ok inst)
      ∧ (m.zsets.lookup name = none →
        m.GetSortedSet name = .error .notFound
        ∧ (m.RegisterSortedSetStorage name).2 = none
        ∧ (m.RegisterSortedSetStorage name).1.GetSortedSet name = .ok name))
    ∧ (∀ (m : StorageManager) (name inst : String),
      (m.GetMemoryHash name = .ok inst →
        m.RegisterMemoryHash name = (m, some .duplicateRegistration)
        ∧ (m.RegisterMemoryHash name).1.GetMemoryHash name = .ok inst)
      ∧ (m.memHashs.lookup name = none →
        m.GetMemoryHash name = .error .notFound
        ∧ (m.RegisterMemoryHash name).2 = none
        ∧ (m.RegisterMemoryHash name).1.GetMemoryHash name = .ok name)) := by
  refine ⟨?_, ?_, ?_, ?_⟩
  all_goals intro m name inst
  · constructor
    · intro h
      have hlk : m.kvs.lookup name = some inst := by
        unfold StorageManager.GetKV at h
        revert h
        cases hcase : m.kvs.lookup name <;> intro h <;> simp_all
      have hreg : m.RegisterKVStorage name
          = (m, some .duplicateRegistration) := by
        unfold StorageManager.RegisterKVStorage
        rw [hlk]
        rfl
      exact ⟨hreg, by rw [hreg]; exact h⟩
    · intro h
      refine ⟨?_, ?_, ?_⟩
      · unfold StorageManager.GetKV
        rw [h]
      · unfold StorageManager.RegisterKVStorage
        rw [h]
        rfl
      · unfold StorageManager.RegisterKVStorage
        rw [h]
        simp only [Option.isSome_none, Bool.false_eq_true, if_false]
        unfold StorageManager.GetKV
        rw [lookup_append_fresh m.kvs name name h]
  · constructor
    · intro h
      have hlk : m.hashs.lookup name = some inst := by
        unfold StorageManager.GetHash at h
        revert h
        cases hcase : m.hashs.lookup name <;> intro h <;> simp_all
      have hreg : m.RegisterHashStorage name
          = (m, some .duplicateRegistration) := by
        unfold StorageManager.RegisterHashStorage
        rw [hlk]
        rfl
      exact ⟨hreg, by rw [hreg]; exact h⟩
    · intro h
      refine ⟨?_, ?_, ?_⟩
      · unfold StorageManager.GetHash
        rw [h]
      · unfold StorageManager.RegisterHashStorage
        rw [h]
        rfl
      · unfold StorageManager.RegisterHashStorage
        rw [h]
        simp only [Option.isSome_none, Bool.false_eq_true, if_false]
        unfold StorageManager.GetHash
        rw [lookup_append_fresh m.hashs name name h]
  · constructor
    · intro h
      have hlk : m.zsets.lookup name = some inst := by
        unfold StorageManager.GetSortedSet at h
        revert h
        cases hcase : m.zsets.lookup name <;> intro h <;> simp_all
      have hreg : m.RegisterSortedSetStorage name
          = (m, some .duplicateRegistration) := by
        unfold StorageManager.RegisterSortedSetStorage
        rw [hlk]
        rfl
      exact ⟨hreg, by rw [hreg]; exact h⟩
    · intro h
      refine ⟨?_, ?_, ?_⟩
      · unfold StorageManager.GetSortedSet
        rw [h]
      · unfold StorageManager.RegisterSortedSetStorage
        rw [h]
        rfl
      · unfold StorageManager.RegisterSortedSetStorage
        rw [h]
        simp only [Option.isSome_none, Bool.false_eq_true, if_false]
        unfold StorageManager.GetSortedSet
        rw [lookup_append_fresh m.zsets name name h]
  · constructor
    · intro h
      have hlk : m.memHashs.lookup name = some inst := by
        unfold StorageManager.GetMemoryHash at h
        revert h
        cases hcase : m.memHashs.lookup name <;> intro h <;> simp_all
      have hreg : m.RegisterMemoryHash name
          = (m, some .duplicateRegistration) := by
        unfold StorageManager.RegisterMemoryHash
        rw [hlk]
        rfl
      exact ⟨hreg, by rw [hreg]; exact h⟩
    · intro h
      refine ⟨?_, ?_, ?_⟩
      · unfold StorageManager.GetMemoryHash
        rw [h]
      · unfold StorageManager.RegisterMemoryHash
        rw [h]
        rfl
      · unfold StorageManager.RegisterMemoryHash
        rw [h]
        simp only [Option.isSome_none, Bool.false_eq_true, if_false]
        unfold StorageManager.GetMemoryHash
        rw [lookup_append_fresh m.memHashs name name h]

/-- C7 (witness): on a fresh manager, registering "a" succeeds and "a" is
retrievable; re-registering "a" fails with the duplicate error and the
first instance is still returned; Get of the never-registered "b" fails
with not-found. -/
theorem C7_registry_duplicate_and_lookup_witness :
    (NewManager.RegisterKVStorage "a").1.GetKV "a" = Except.ok "a"
    ∧ ((NewManager.RegisterKVStorage "a").1.RegisterKVStorage "a"
        = ((NewManager.RegisterKVStorage "a").1,
            some StErr.duplicateRegistration)
      ∧ ((NewManager.RegisterKVStorage "a").1.RegisterKVStorage "a").1.GetKV
          "a" = Except.ok "a")
    ∧ NewManager.kvs.lookup "b" = none
    ∧ (NewManager.GetKV "b" = Except.error StErr.notFound
      ∧ (NewManager.RegisterKVStorage "b").2 = none
      ∧ (NewManager.RegisterKVStorage "b").1.GetKV "b" = Except.ok "b") :=
  ⟨by rfl,
   (C7_registry_duplicate_and_lookup.1
       (NewManager.RegisterKVStorage "a").1 "a" "a").1 (by rfl),
   by decide,
   (C7_registry_duplicate_and_lookup.1 NewManager "b" "b").2 (by decide)⟩

end GlobalStorage
